import Mathlib

set_option autoImplicit false

/-!
Shallow embedding of the `os-interface` crate (src/error.rs, src/network.rs).

The crate walks the linked list returned by `getifaddrs`, merges the raw
per-address-family records into one `NetworkInterface` per interface index
(a `BTreeMap<u32, NetworkInterface>` keyed by `if_nametoindex`), and exposes
derived queries.  We model the OS boundary (`getifaddrs` status and list,
`if_nametoindex`, `gethostname`) as explicit inputs, the `BTreeMap` as an
association list kept strictly sorted by key, and the type-erased `sockaddr`
payload as a record carrying the discriminant together with the value each
reinterpretation of the raw bytes would produce.  The Linux/Android build
configuration is modelled (`AF_PACKET`/`sockaddr_ll` link-layer branch and
the `ifa_ifu` broadcast union field); exactly one platform branch of the
source is compiled per target.  Multi-byte integers are `Nat` with explicit
byte arithmetic; the host is little-endian, so `u32::to_be`/`u32::from_be`
are both the byte swap.
-/

namespace OsIface

/-- Error type of the crate (src/error.rs): one kind, carrying a description. -/
inductive Error where
  | FailedToGetResource (description : String)
  deriving DecidableEq

/-- Interface flags (`Flags` in src/network.rs). -/
structure Flags where
  up : Bool
  loopback : Bool
  running : Bool
  multicast : Bool
  broadcast : Bool
  deriving DecidableEq

/-- IPv4 interface address (`IfAddrV4`); `Ipv4Addr` values are their `u32` numeric form. -/
structure IfAddrV4 where
  ip : Nat
  netmask : Option Nat
  broadcast : Option Nat
  deriving DecidableEq

/-- IPv6 interface address (`IfAddrV6`); `Ipv6Addr` values are their 16 raw bytes. -/
structure IfAddrV6 where
  ip : List Nat
  netmask : Option (List Nat)
  deriving DecidableEq

/-- Tagged address union (`Addr` in src/network.rs): exactly two variants. -/
inductive Addr where
  | IPv4 (v : IfAddrV4)
  | IPv6 (v : IfAddrV6)
  deriving DecidableEq

/-- System network interface (`NetworkInterface` in src/network.rs). -/
structure NetworkInterface where
  index : Nat
  name : String
  addr : List Addr
  mac_addr : Option String
  flags : Flags
  deriving DecidableEq

/-- One raw `sockaddr` blob: the runtime discriminant `sa_family` plus the value
each reinterpretation of the type-erased bytes yields (`sockaddr_in`,
`sockaddr_in6`, `sockaddr_ll` views).  `sin_s_addr` is the `u32` a
little-endian host reads from the in-memory (network byte order) address. -/
structure Sockaddr where
  sa_family : Int
  sin_s_addr : Nat
  sin6_s6_addr : List Nat
  sll_halen : Nat
  sll_addr : List Nat
  deriving DecidableEq

/-- One node of the `getifaddrs` linked list (`struct ifaddrs`), Linux layout:
the broadcast/destination union field is `ifa_ifu`.  Nullable pointers are
`Option`; the `ifa_next` link is the enclosing `List`. -/
structure Ifaddrs where
  ifa_name : String
  ifa_flags : Nat
  ifa_addr : Option Sockaddr
  ifa_netmask : Option Sockaddr
  ifa_ifu : Option Sockaddr
  deriving DecidableEq

/-- Linux `AF_INET`. -/
def AF_INET : Int := 2

/-- Linux `AF_INET6`. -/
def AF_INET6 : Int := 10

/-- Linux `AF_PACKET`. -/
def AF_PACKET : Int := 17

/-- Linux `IFF_UP`. -/
def IFF_UP : Nat := 1

/-- Linux `IFF_BROADCAST`. -/
def IFF_BROADCAST : Nat := 2

/-- Linux `IFF_LOOPBACK`. -/
def IFF_LOOPBACK : Nat := 8

/-- Linux `IFF_RUNNING`. -/
def IFF_RUNNING : Nat := 64

/-- Linux `IFF_MULTICAST`. -/
def IFF_MULTICAST : Nat := 4096

/-- Byte swap of a `u32`: `u32::to_be` on a little-endian host. -/
def u32_to_be (n : Nat) : Nat :=
  n % 256 * 16777216 + n / 256 % 256 * 65536 + n / 65536 % 256 * 256 + n / 16777216 % 256

/-- Byte swap of a `u32`: `u32::from_be` on a little-endian host (same swap). -/
def u32_from_be (n : Nat) : Nat :=
  u32_to_be n

/-- Translation of the raw `ifa_flags` bitmask into `Flags` (the five bit
tests inlined in `network_interfaces`). -/
def flagsOf (raw : Nat) : Flags :=
  { up := (raw &&& IFF_UP) != 0
    loopback := (raw &&& IFF_LOOPBACK) != 0
    running := (raw &&& IFF_RUNNING) != 0
    multicast := (raw &&& IFF_MULTICAST) != 0
    broadcast := (raw &&& IFF_BROADCAST) != 0 }

/-- Decoder `if_addr_v4`.  The caller guarantees `ifa.ifa_addr` is non-null;
the `getD` models the unchecked dereference.  Netmask and address apply the
byte-order correction; broadcast requires the non-null union pointer AND the
broadcast flag. -/
def if_addr_v4 (ifa : Ifaddrs) (flags : Flags) : IfAddrV4 :=
  let netmask : Option Nat :=
    match ifa.ifa_netmask with
    | some mask => some (u32_to_be mask.sin_s_addr)
    | none => none
  let broadcast : Option Nat :=
    match ifa.ifa_ifu with
    | some sa => if flags.broadcast then some (u32_from_be sa.sin_s_addr) else none
    | none => none
  let ip : Nat := u32_to_be ((ifa.ifa_addr.map Sockaddr.sin_s_addr).getD 0)
  { ip := ip, netmask := netmask, broadcast := broadcast }

/-- Decoder `if_addr_v6`: 16-byte arrays copied verbatim, no byte-order work. -/
def if_addr_v6 (ifa : Ifaddrs) : IfAddrV6 :=
  let netmask : Option (List Nat) :=
    match ifa.ifa_netmask with
    | some mask => some mask.sin6_s6_addr
    | none => none
  { ip := (ifa.ifa_addr.map Sockaddr.sin6_s6_addr).getD (List.replicate 16 0)
    netmask := netmask }

/-- Lowercase hexadecimal digit for a value below 16 (the `{:02x}` digits). -/
def hexDigit (n : Nat) : Char :=
  if n < 10 then Char.ofNat (48 + n) else Char.ofNat (87 + n)

/-- Two-digit lowercase hex rendering of one byte (`{:02x}` on a `u8`). -/
def byteToHexPair (b : Nat) : String :=
  String.mk [hexDigit (b % 256 / 16), hexDigit (b % 16)]

/-- Formatter `mac_to_string`: the six bytes as colon-separated lowercase hex. -/
def mac_to_string (mac : List Nat) : String :=
  byteToHexPair (mac.getD 0 0) ++ ":" ++ byteToHexPair (mac.getD 1 0) ++ ":" ++
  byteToHexPair (mac.getD 2 0) ++ ":" ++ byteToHexPair (mac.getD 3 0) ++ ":" ++
  byteToHexPair (mac.getD 4 0) ++ ":" ++ byteToHexPair (mac.getD 5 0)

/-- Decoder `mac_addr`, Linux branch (`AF_PACKET`, `sockaddr_ll`): the declared
hardware length must be exactly 6, otherwise `None`.  The caller guarantees
`ifa.ifa_addr` is non-null; the `getD` models the unchecked dereference. -/
def mac_addr (ifa : Ifaddrs) (family : Int) : Option String :=
  if family = AF_PACKET then
    let sll := ifa.ifa_addr.getD { sa_family := 0, sin_s_addr := 0, sin6_s6_addr := [],
                                   sll_halen := 0, sll_addr := [] }
    let len := sll.sll_halen
    if len = 6 then some (mac_to_string sll.sll_addr) else none
  else
    none

/-- Model of `BTreeMap<u32, NetworkInterface>`: an association list kept
strictly sorted by key. -/
abbrev Imap := List (Nat × NetworkInterface)

/-- Embedding of the `BTreeMap::entry(k).and_modify(f).or_insert(d)` idiom on
the sorted association list. -/
def entryModify (k : Nat) (f : NetworkInterface → NetworkInterface)
    (d : NetworkInterface) : Imap → Imap
  | [] => [(k, d)]
  | (k0, v0) :: rest =>
    if k0 < k then (k0, v0) :: entryModify k f d rest
    else if k0 = k then (k0, f v0) :: rest
    else (k, d) :: (k0, v0) :: rest

/-- Key lookup in the association-list map (`BTreeMap` lookup). -/
def lookupEntry (k : Nat) : Imap → Option NetworkInterface
  | [] => none
  | (k0, v0) :: rest => if k0 = k then some v0 else lookupEntry k rest

/-- `BTreeMap::into_values().collect()`: the values in ascending key order. -/
def intoValues (m : Imap) : List NetworkInterface :=
  m.map Prod.snd

/-- Function `update_interfaces`: insert a fresh `NetworkInterface` holding the
single address, or append the address to an existing slot's `addr` list. -/
def update_interfaces (index : Nat) (name : String) (addr : Addr) (flags : Flags)
    (interfaces : Imap) : Imap :=
  entryModify index (fun i => { i with addr := i.addr ++ [addr] })
    { index := index, name := name, addr := [addr], mac_addr := none, flags := flags }
    interfaces

/-- Function `update_interfaces_with_mac`: insert a fresh `NetworkInterface`
holding the MAC, or replace an existing slot's `mac_addr`. -/
def update_interfaces_with_mac (index : Nat) (name : String) (mac_addr : Option String)
    (flags : Flags) (interfaces : Imap) : Imap :=
  entryModify index (fun i => { i with mac_addr := mac_addr })
    { index := index, name := name, addr := [], mac_addr := mac_addr, flags := flags }
    interfaces

/-- The OS boundary for one enumeration call: the `getifaddrs` return status,
the linked list it produced, and the `if_nametoindex` resolution function
(0 encodes failure). -/
structure OsEnv where
  getifaddrs_status : Int
  ifaddrs_list : List Ifaddrs
  if_nametoindex : String → Nat

/-- Body of the `while` loop of `network_interfaces` for one node, restricted
to its effect on the aggregation map: resolve the index, translate the flags,
skip a null `ifa_addr`, otherwise dispatch on the discriminant. -/
def processRecord (resolve : String → Nat) (m : Imap) (ifa : Ifaddrs) : Imap :=
  match ifa.ifa_addr with
  | none => m
  | some ifa_addr =>
    let index := resolve ifa.ifa_name
    let flags := flagsOf ifa.ifa_flags
    let family := ifa_addr.sa_family
    if family = AF_INET then
      update_interfaces index ifa.ifa_name (Addr.IPv4 (if_addr_v4 ifa flags)) flags m
    else if family = AF_INET6 then
      update_interfaces index ifa.ifa_name (Addr.IPv6 (if_addr_v6 ifa)) flags m
    else
      update_interfaces_with_mac index ifa.ifa_name (mac_addr ifa family) flags m

/-- Diagnostic output of the loop body for one node: the `eprint!` message
emitted when `if_nametoindex` returns 0. -/
def recordDiag (resolve : String → Nat) (ifa : Ifaddrs) : List String :=
  if resolve ifa.ifa_name = 0 then ["Interface no longer exists: " ++ ifa.ifa_name] else []

/-- Full loop body of `network_interfaces` for one node: the emitted
diagnostics together with the map update. -/
def walkStep (resolve : String → Nat) (st : List String × Imap) (ifa : Ifaddrs) :
    List String × Imap :=
  (st.1 ++ recordDiag resolve ifa, processRecord resolve st.2 ifa)

/-- The complete walk of the raw list (the `while` loop), starting from the
empty diagnostics and the empty `BTreeMap`. -/
def network_interfaces_walk (env : OsEnv) : List String × Imap :=
  env.ifaddrs_list.foldl (walkStep env.if_nametoindex) ([], [])

/-- Public entry point `network_interfaces`: a nonzero `getifaddrs` status is
an immediate `FailedToGetResource` error carrying the code; otherwise the list
is walked into the map and the map's values are returned in key order. -/
def network_interfaces (env : OsEnv) : Except Error (List NetworkInterface) :=
  if env.getifaddrs_status ≠ 0 then
    Except.error (Error.FailedToGetResource
      ("getifaddrs returned " ++ toString env.getifaddrs_status))
  else
    Except.ok (intoValues (network_interfaces_walk env).2)

/-- The `find_map` of `local_ipv4_addresses`: first IPv4 address's IP. -/
def firstIPv4 (addrs : List Addr) : Option Nat :=
  addrs.findSome? (fun a =>
    match a with
    | Addr.IPv4 v => some v.ip
    | _ => none)

/-- Public entry point `local_ipv4_addresses`: keep non-loopback interfaces and
project each to its first IPv4 address's IP. -/
def local_ipv4_addresses (env : OsEnv) : Except Error (List Nat) :=
  (network_interfaces env).map (fun interfaces =>
    interfaces.filterMap (fun ni =>
      if ni.flags.loopback then none else firstIPv4 ni.addr))

/-- The OS boundary for one `hostname` call: the `gethostname` status and the
256 bytes of the buffer as the call left them. -/
structure HostnameEnv where
  gethostname_status : Int
  buf_bytes : List Nat

/-- Public entry point `hostname`: a nonzero `gethostname` status is an
immediate `FailedToGetResource` error carrying the code; otherwise the last
buffer byte is forced to 0 and the bytes before the first 0 are the result
(`OsString` as its byte list). -/
def hostname (env : HostnameEnv) : Except Error (List Nat) :=
  if env.gethostname_status ≠ 0 then
    Except.error (Error.FailedToGetResource
      ("gethostname returned " ++ toString env.gethostname_status))
  else
    Except.ok (((env.buf_bytes.take 255) ++ [0]).takeWhile (fun b => b ≠ 0))

/-- Strict key order on map entries. -/
def keyLt (p q : Nat × NetworkInterface) : Prop := p.1 < q.1

/-- Key/value consistency: every stored interface records its own key. -/
def idxOk (m : Imap) : Prop := ∀ p ∈ m, p.2.index = p.1

theorem mem_of_lookupEntry_eq (k : Nat) (v : NetworkInterface) (m : Imap)
    (h : lookupEntry k m = some v) : (k, v) ∈ m := by
  induction m with
  | nil => simp [lookupEntry] at h
  | cons q rest ih =>
    obtain ⟨k0, v0⟩ := q
    by_cases h2 : k0 = k
    · subst h2
      simp [lookupEntry] at h
      subst h
      exact List.mem_cons_self _ _
    · simp only [lookupEntry, if_neg h2] at h
      exact List.mem_cons_of_mem _ (ih h)

theorem isSome_lookupEntry_of_mem (k : Nat) (v : NetworkInterface) (m : Imap)
    (h : (k, v) ∈ m) : (lookupEntry k m).isSome = true := by
  induction m with
  | nil => simp at h
  | cons q rest ih =>
    obtain ⟨k0, v0⟩ := q
    simp only [List.mem_cons] at h
    by_cases h2 : k0 = k
    · simp [lookupEntry, h2]
    · rcases h with h | h
      · simp only [Prod.mk.injEq] at h
        exact absurd h.1.symm h2
      · simp [lookupEntry, h2, ih h]

theorem lookupEntry_eq_of_mem (k : Nat) (v : NetworkInterface) (m : Imap)
    (hp : List.Pairwise keyLt m) (h : (k, v) ∈ m) : lookupEntry k m = some v := by
  induction m with
  | nil => simp at h
  | cons q rest ih =>
    obtain ⟨k0, v0⟩ := q
    rw [List.pairwise_cons] at hp
    simp only [List.mem_cons] at h
    rcases h with h | h
    · simp only [Prod.mk.injEq] at h
      simp [lookupEntry, h.1, h.2]
    · have hlt := hp.1 _ h
      simp only [keyLt] at hlt
      have h2 : ¬ k0 = k := by omega
      simp [lookupEntry, h2, ih hp.2 h]

theorem lookupEntry_entryModify_ne (k j : Nat) (f : NetworkInterface → NetworkInterface)
    (d : NetworkInterface) (m : Imap) (h : j ≠ k) :
    lookupEntry j (entryModify k f d m) = lookupEntry j m := by
  have hkj : ¬ k = j := fun hkj => h hkj.symm
  induction m with
  | nil => simp [entryModify, lookupEntry, hkj]
  | cons p rest ih =>
    obtain ⟨k0, v0⟩ := p
    rcases Nat.lt_trichotomy k0 k with h1 | h1 | h1
    · by_cases h2 : k0 = j
      · subst h2
        simp [entryModify, lookupEntry, h1]
      · simp [entryModify, lookupEntry, h1, h2, ih]
    · subst h1
      simp [entryModify, lookupEntry, hkj, lt_irrefl]
    · have hn1 : ¬ k0 < k := by omega
      have hn2 : ¬ k0 = k := by omega
      simp [entryModify, lookupEntry, hn1, hn2, hkj]

theorem isSome_lookupEntry_entryModify (k : Nat) (f : NetworkInterface → NetworkInterface)
    (d : NetworkInterface) (m : Imap) :
    (lookupEntry k (entryModify k f d m)).isSome = true := by
  induction m with
  | nil => simp [entryModify, lookupEntry]
  | cons p rest ih =>
    obtain ⟨k0, v0⟩ := p
    rcases Nat.lt_trichotomy k0 k with h1 | h1 | h1
    · have hne : ¬ k0 = k := by omega
      simp [entryModify, lookupEntry, h1, hne, ih]
    · subst h1
      simp [entryModify, lookupEntry, lt_irrefl]
    · have hn1 : ¬ k0 < k := by omega
      have hn2 : ¬ k0 = k := by omega
      simp [entryModify, lookupEntry, hn1, hn2]

theorem lookupEntry_entryModify_none (k : Nat) (f : NetworkInterface → NetworkInterface)
    (d : NetworkInterface) (m : Imap) (h : lookupEntry k m = none) :
    lookupEntry k (entryModify k f d m) = some d := by
  induction m with
  | nil => simp [entryModify, lookupEntry]
  | cons p rest ih =>
    obtain ⟨k0, v0⟩ := p
    rcases Nat.lt_trichotomy k0 k with h1 | h1 | h1
    · have hne : ¬ k0 = k := by omega
      simp only [lookupEntry, if_neg hne] at h
      simp [entryModify, lookupEntry, h1, hne, ih h]
    · subst h1
      simp [lookupEntry] at h
    · have hn1 : ¬ k0 < k := by omega
      have hn2 : ¬ k0 = k := by omega
      simp [entryModify, lookupEntry, hn1, hn2]

theorem lookupEntry_entryModify_some (k : Nat) (f : NetworkInterface → NetworkInterface)
    (d : NetworkInterface) (m : Imap) (v : NetworkInterface)
    (hp : List.Pairwise keyLt m) (h : lookupEntry k m = some v) :
    lookupEntry k (entryModify k f d m) = some (f v) := by
  induction m with
  | nil => simp [lookupEntry] at h
  | cons p rest ih =>
    obtain ⟨k0, v0⟩ := p
    rw [List.pairwise_cons] at hp
    rcases Nat.lt_trichotomy k0 k with h1 | h1 | h1
    · have hne : ¬ k0 = k := by omega
      simp only [lookupEntry, if_neg hne] at h
      simp [entryModify, lookupEntry, h1, hne, ih hp.2 h]
    · subst h1
      simp [lookupEntry] at h
      subst h
      simp [entryModify, lookupEntry, lt_irrefl]
    · exfalso
      have hne : ¬ k0 = k := by omega
      simp only [lookupEntry, if_neg hne] at h
      have hmem := mem_of_lookupEntry_eq k v rest h
      have := hp.1 _ hmem
      simp only [keyLt] at this
      omega

theorem fst_mem_entryModify (k : Nat) (f : NetworkInterface → NetworkInterface)
    (d : NetworkInterface) (m : Imap) (p : Nat × NetworkInterface)
    (hq : p ∈ entryModify k f d m) : p.1 = k ∨ p.1 ∈ m.map Prod.fst := by
  induction m with
  | nil =>
    simp only [entryModify, List.mem_singleton] at hq
    subst hq
    simp
  | cons q rest ih =>
    obtain ⟨k0, v0⟩ := q
    rcases Nat.lt_trichotomy k0 k with h1 | h1 | h1
    · simp only [entryModify, if_pos h1, List.mem_cons] at hq
      rcases hq with hq | hq
      · subst hq; simp
      · rcases ih hq with h | h
        · exact Or.inl h
        · right; simp only [List.map_cons, List.mem_cons]; right; exact h
    · subst h1
      have ediag : entryModify k0 f d ((k0, v0) :: rest) = (k0, f v0) :: rest := by
        simp [entryModify]
      rw [ediag] at hq
      simp only [List.mem_cons] at hq
      rcases hq with hq | hq
      · subst hq; simp
      · right
        simp only [List.map_cons, List.mem_cons]
        right
        exact List.mem_map_of_mem Prod.fst hq
    · have hn1 : ¬ k0 < k := by omega
      have hn2 : ¬ k0 = k := by omega
      simp only [entryModify, if_neg hn1, if_neg hn2, List.mem_cons] at hq
      rcases hq with hq | hq | hq
      · subst hq; simp
      · subst hq; simp
      · right
        simp only [List.map_cons, List.mem_cons]
        right
        exact List.mem_map_of_mem Prod.fst hq

theorem pairwise_entryModify (k : Nat) (f : NetworkInterface → NetworkInterface)
    (d : NetworkInterface) (m : Imap) (hp : List.Pairwise keyLt m) :
    List.Pairwise keyLt (entryModify k f d m) := by
  induction m with
  | nil => simp [entryModify, keyLt]
  | cons q rest ih =>
    obtain ⟨k0, v0⟩ := q
    rw [List.pairwise_cons] at hp
    rcases Nat.lt_trichotomy k0 k with h1 | h1 | h1
    · simp only [entryModify, if_pos h1]
      rw [List.pairwise_cons]
      refine ⟨fun p hp' => ?_, ih hp.2⟩
      rcases fst_mem_entryModify k f d rest p hp' with hcase | hcase
      · simp only [keyLt]; omega
      · rcases List.mem_map.mp hcase with ⟨q, hq, hq2⟩
        have := hp.1 q hq
        simp only [keyLt] at this ⊢
        omega
    · subst h1
      have ediag : entryModify k0 f d ((k0, v0) :: rest) = (k0, f v0) :: rest := by
        simp [entryModify]
      rw [ediag, List.pairwise_cons]
      refine ⟨fun p hp' => ?_, hp.2⟩
      have := hp.1 p hp'
      simpa [keyLt] using this
    · have hn1 : ¬ k0 < k := by omega
      have hn2 : ¬ k0 = k := by omega
      simp only [entryModify, if_neg hn1, if_neg hn2]
      rw [List.pairwise_cons]
      constructor
      · intro p hp'
        simp only [List.mem_cons] at hp'
        rcases hp' with hp' | hp'
        · subst hp'; exact h1
        · have := hp.1 p hp'
          simp only [keyLt] at this ⊢
          omega
      · rw [List.pairwise_cons]
        exact ⟨hp.1, hp.2⟩

theorem idxOk_entryModify (k : Nat) (f : NetworkInterface → NetworkInterface)
    (d : NetworkInterface) (m : Imap)
    (hf : ∀ v, (f v).index = v.index) (hd : d.index = k) (h : idxOk m) :
    idxOk (entryModify k f d m) := by
  induction m with
  | nil =>
    intro p hp
    simp only [entryModify, List.mem_singleton] at hp
    subst hp
    exact hd
  | cons q rest ih =>
    obtain ⟨k0, v0⟩ := q
    have hhead : v0.index = k0 := h (k0, v0) (List.mem_cons_self _ _)
    have htail : idxOk rest := fun p hp => h p (List.mem_cons_of_mem _ hp)
    intro p hp
    rcases Nat.lt_trichotomy k0 k with h1 | h1 | h1
    · simp only [entryModify, if_pos h1, List.mem_cons] at hp
      rcases hp with hp | hp
      · subst hp; exact hhead
      · exact ih htail p hp
    · subst h1
      have ediag : entryModify k0 f d ((k0, v0) :: rest) = (k0, f v0) :: rest := by
        simp [entryModify]
      rw [ediag] at hp
      simp only [List.mem_cons] at hp
      rcases hp with hp | hp
      · subst hp; simp [hf, hhead]
      · exact htail p hp
    · have hn1 : ¬ k0 < k := by omega
      have hn2 : ¬ k0 = k := by omega
      simp only [entryModify, if_neg hn1, if_neg hn2, List.mem_cons] at hp
      rcases hp with hp | hp | hp
      · subst hp; exact hd
      · subst hp; exact hhead
      · exact htail p hp

theorem processRecord_null (resolve : String → Nat) (m : Imap) (ifa : Ifaddrs)
    (h : ifa.ifa_addr = none) : processRecord resolve m ifa = m := by
  simp [processRecord, h]

theorem processRecord_shape (resolve : String → Nat) (m : Imap) (ifa : Ifaddrs)
    (sa : Sockaddr) (h : ifa.ifa_addr = some sa) :
    ∃ f d, processRecord resolve m ifa = entryModify (resolve ifa.ifa_name) f d m ∧
      (∀ v, (f v).index = v.index ∧ (f v).name = v.name ∧ (f v).flags = v.flags) ∧
      d.index = resolve ifa.ifa_name ∧ d.name = ifa.ifa_name ∧
      d.flags = flagsOf ifa.ifa_flags := by
  simp only [processRecord, h]
  by_cases h4 : sa.sa_family = AF_INET
  · exact ⟨fun i => { i with addr := i.addr ++ [Addr.IPv4 (if_addr_v4 ifa (flagsOf ifa.ifa_flags))] },
      { index := resolve ifa.ifa_name, name := ifa.ifa_name,
        addr := [Addr.IPv4 (if_addr_v4 ifa (flagsOf ifa.ifa_flags))], mac_addr := none,
        flags := flagsOf ifa.ifa_flags },
      by rw [if_pos h4]; rfl, fun v => ⟨rfl, rfl, rfl⟩, rfl, rfl, rfl⟩
  · by_cases h6 : sa.sa_family = AF_INET6
    · exact ⟨fun i => { i with addr := i.addr ++ [Addr.IPv6 (if_addr_v6 ifa)] },
        { index := resolve ifa.ifa_name, name := ifa.ifa_name,
          addr := [Addr.IPv6 (if_addr_v6 ifa)], mac_addr := none,
          flags := flagsOf ifa.ifa_flags },
        by rw [if_neg h4, if_pos h6]; rfl, fun v => ⟨rfl, rfl, rfl⟩, rfl, rfl, rfl⟩
    · exact ⟨fun i => { i with mac_addr := mac_addr ifa sa.sa_family },
        { index := resolve ifa.ifa_name, name := ifa.ifa_name, addr := [],
          mac_addr := mac_addr ifa sa.sa_family, flags := flagsOf ifa.ifa_flags },
        by rw [if_neg h4, if_neg h6]; rfl, fun v => ⟨rfl, rfl, rfl⟩, rfl, rfl, rfl⟩

theorem lookupEntry_processRecord_ne (resolve : String → Nat) (m : Imap) (ifa : Ifaddrs)
    (j : Nat) (h : ifa.ifa_addr ≠ none → resolve ifa.ifa_name ≠ j) :
    lookupEntry j (processRecord resolve m ifa) = lookupEntry j m := by
  cases haddr : ifa.ifa_addr with
  | none => rw [processRecord_null resolve m ifa haddr]
  | some sa =>
    have hne : resolve ifa.ifa_name ≠ j := h (by simp [haddr])
    obtain ⟨f, d, heq, -, -, -, -⟩ := processRecord_shape resolve m ifa sa haddr
    rw [heq]
    exact lookupEntry_entryModify_ne _ j f d m (Ne.symm hne)

theorem lookupEntry_foldl_frame (resolve : String → Nat) (l : List Ifaddrs) (m : Imap)
    (j : Nat) (h : ∀ r ∈ l, r.ifa_addr ≠ none → resolve r.ifa_name ≠ j) :
    lookupEntry j (l.foldl (processRecord resolve) m) = lookupEntry j m := by
  induction l generalizing m with
  | nil => rfl
  | cons r t ih =>
    simp only [List.foldl_cons]
    rw [ih (processRecord resolve m r) (fun r' hr' => h r' (List.mem_cons_of_mem _ hr')),
      lookupEntry_processRecord_ne resolve m r j (h r (List.mem_cons_self _ _))]

theorem wf_processRecord (resolve : String → Nat) (m : Imap) (ifa : Ifaddrs)
    (hp : List.Pairwise keyLt m) (hi : idxOk m) :
    List.Pairwise keyLt (processRecord resolve m ifa) ∧ idxOk (processRecord resolve m ifa) := by
  cases haddr : ifa.ifa_addr with
  | none => rw [processRecord_null resolve m ifa haddr]; exact ⟨hp, hi⟩
  | some sa =>
    obtain ⟨f, d, heq, hB, hC, -, -⟩ := processRecord_shape resolve m ifa sa haddr
    rw [heq]
    exact ⟨pairwise_entryModify _ f d m hp,
      idxOk_entryModify _ f d m (fun v => (hB v).1) hC hi⟩

theorem wf_foldl (resolve : String → Nat) (l : List Ifaddrs) (m : Imap)
    (hp : List.Pairwise keyLt m) (hi : idxOk m) :
    List.Pairwise keyLt (l.foldl (processRecord resolve) m) ∧
      idxOk (l.foldl (processRecord resolve) m) := by
  induction l generalizing m with
  | nil => exact ⟨hp, hi⟩
  | cons r t ih =>
    simp only [List.foldl_cons]
    obtain ⟨hp', hi'⟩ := wf_processRecord resolve m r hp hi
    exact ih _ hp' hi'

theorem isSome_processRecord (resolve : String → Nat) (m : Imap) (ifa : Ifaddrs) (k : Nat) :
    (lookupEntry k (processRecord resolve m ifa)).isSome = true ↔
      (lookupEntry k m).isSome = true ∨
        (ifa.ifa_addr ≠ none ∧ resolve ifa.ifa_name = k) := by
  cases haddr : ifa.ifa_addr with
  | none => rw [processRecord_null resolve m ifa haddr]; simp
  | some sa =>
    obtain ⟨f, d, heq, -, -, -, -⟩ := processRecord_shape resolve m ifa sa haddr
    rw [heq]
    by_cases hk : resolve ifa.ifa_name = k
    · subst hk
      simp [isSome_lookupEntry_entryModify]
    · rw [lookupEntry_entryModify_ne (resolve ifa.ifa_name) k f d m (Ne.symm hk)]
      simp [hk]

theorem isSome_foldl (resolve : String → Nat) (l : List Ifaddrs) (m : Imap) (k : Nat) :
    (lookupEntry k (l.foldl (processRecord resolve) m)).isSome = true ↔
      (lookupEntry k m).isSome = true ∨
        ∃ r ∈ l, r.ifa_addr ≠ none ∧ resolve r.ifa_name = k := by
  induction l generalizing m with
  | nil => simp
  | cons r t ih =>
    simp only [List.foldl_cons]
    rw [ih, isSome_processRecord]
    constructor
    · rintro ((h | h) | h)
      · exact Or.inl h
      · exact Or.inr ⟨r, List.mem_cons_self _ _, h⟩
      · obtain ⟨r', hr', h'⟩ := h
        exact Or.inr ⟨r', List.mem_cons_of_mem _ hr', h'⟩
    · rintro (h | ⟨r', hr', h'⟩)
      · exact Or.inl (Or.inl h)
      · rcases List.mem_cons.mp hr' with he | he
        · subst he; exact Or.inl (Or.inr h')
        · exact Or.inr ⟨r', he, h'⟩

theorem preserve_processRecord (resolve : String → Nat) (m : Imap) (ifa : Ifaddrs) (k : Nat)
    (v : NetworkInterface) (hp : List.Pairwise keyLt m) (h : lookupEntry k m = some v) :
    ∃ v', lookupEntry k (processRecord resolve m ifa) = some v' ∧
      v'.name = v.name ∧ v'.flags = v.flags := by
  cases haddr : ifa.ifa_addr with
  | none => rw [processRecord_null resolve m ifa haddr]; exact ⟨v, h, rfl, rfl⟩
  | some sa =>
    obtain ⟨f, d, heq, hB, -, -, -⟩ := processRecord_shape resolve m ifa sa haddr
    rw [heq]
    by_cases hk : resolve ifa.ifa_name = k
    · subst hk
      exact ⟨f v, lookupEntry_entryModify_some _ f d m v hp h, (hB v).2.1, (hB v).2.2⟩
    · exact ⟨v, by rw [lookupEntry_entryModify_ne _ k f d m (Ne.symm hk)]; exact h, rfl, rfl⟩

theorem preserve_foldl (resolve : String → Nat) (l : List Ifaddrs) (m : Imap) (k : Nat)
    (v : NetworkInterface) (hp : List.Pairwise keyLt m) (hi : idxOk m)
    (h : lookupEntry k m = some v) :
    ∃ v', lookupEntry k (l.foldl (processRecord resolve) m) = some v' ∧
      v'.name = v.name ∧ v'.flags = v.flags := by
  induction l generalizing m v with
  | nil => exact ⟨v, h, rfl, rfl⟩
  | cons r t ih =>
    simp only [List.foldl_cons]
    obtain ⟨v1, h1, hn1, hf1⟩ := preserve_processRecord resolve m r k v hp h
    obtain ⟨hp', hi'⟩ := wf_processRecord resolve m r hp hi
    obtain ⟨v2, h2, hn2, hf2⟩ := ih _ v1 hp' hi' h1
    exact ⟨v2, h2, hn2.trans hn1, hf2.trans hf1⟩

theorem mem_intoValues (m : Imap) (ni : NetworkInterface) :
    ni ∈ intoValues m ↔ ∃ k, (k, ni) ∈ m := by
  simp only [intoValues, List.mem_map]
  constructor
  · rintro ⟨⟨k, v⟩, hm, he⟩
    subst he
    exact ⟨k, hm⟩
  · rintro ⟨k, hm⟩
    exact ⟨(k, ni), hm, rfl⟩

theorem pairwise_intoValues (m : Imap) (hp : List.Pairwise keyLt m) (hi : idxOk m) :
    List.Pairwise (fun a b => a.index < b.index) (intoValues m) := by
  simp only [intoValues]
  rw [List.pairwise_map]
  exact List.Pairwise.imp_of_mem (fun {p} {q} hpm hqm hlt => by
    have h1 := hi p hpm
    have h2 := hi q hqm
    simp only [keyLt] at hlt
    omega) hp

theorem length_filter_index_le_one (out : List NetworkInterface) (j : Nat)
    (hp : List.Pairwise (fun a b => a.index < b.index) out) :
    (out.filter (fun ni => ni.index = j)).length ≤ 1 := by
  rcases hfil : out.filter (fun ni => ni.index = j) with _ | ⟨x, t⟩
  · rw [hfil]; simp
  · rcases t with _ | ⟨y, t'⟩
    · rw [hfil]; simp
    · exfalso
      have hp2 := hp.filter (fun ni => decide (ni.index = j))
      rw [hfil] at hp2
      have hxy : x.index < y.index := (List.pairwise_cons.mp hp2).1 y (by simp)
      have hx : x ∈ out.filter (fun ni => ni.index = j) := by rw [hfil]; simp
      have hy : y ∈ out.filter (fun ni => ni.index = j) := by rw [hfil]; simp
      have hx' := (List.mem_filter.mp hx).2
      have hy' := (List.mem_filter.mp hy).2
      simp at hx' hy'
      omega

theorem eq_singleton_of_length_le_one {α : Type} (l : List α) (a : α)
    (h1 : l.length ≤ 1) (h2 : a ∈ l) : l = [a] := by
  cases l with
  | nil => simp at h2
  | cons x t =>
    cases t with
    | nil =>
      simp only [List.mem_singleton] at h2
      simp [h2]
    | cons y t' => simp at h1

theorem walk_snd_foldl (resolve : String → Nat) (l : List Ifaddrs) (st : List String × Imap) :
    (l.foldl (walkStep resolve) st).2 = l.foldl (processRecord resolve) st.2 := by
  induction l generalizing st with
  | nil => rfl
  | cons r t ih =>
    simp only [List.foldl_cons]
    rw [ih]
    rfl

theorem walk_fst_sub (resolve : String → Nat) (l : List Ifaddrs) (st : List String × Imap)
    (s : String) (h : s ∈ st.1) : s ∈ (l.foldl (walkStep resolve) st).1 := by
  induction l generalizing st with
  | nil => exact h
  | cons r t ih =>
    simp only [List.foldl_cons]
    exact ih _ (by simp [walkStep, h])

theorem diag_mem_foldl (resolve : String → Nat) (l : List Ifaddrs) (st : List String × Imap)
    (r : Ifaddrs) (s : String) (hr : r ∈ l) (hs : s ∈ recordDiag resolve r) :
    s ∈ (l.foldl (walkStep resolve) st).1 := by
  induction l generalizing st with
  | nil => simp at hr
  | cons r0 t ih =>
    simp only [List.foldl_cons]
    rcases List.mem_cons.mp hr with he | he
    · subst he
      exact walk_fst_sub resolve t _ s (by simp [walkStep]; right; exact hs)
    · exact ih _ he

theorem network_interfaces_ok (env : OsEnv) (h : env.getifaddrs_status = 0) :
    network_interfaces env =
      Except.ok (intoValues (env.ifaddrs_list.foldl (processRecord env.if_nametoindex) [])) := by
  simp only [network_interfaces, h]
  simp [network_interfaces_walk, walk_snd_foldl]

theorem status_eq_zero_of_ok (env : OsEnv) (out : List NetworkInterface)
    (h : network_interfaces env = Except.ok out) : env.getifaddrs_status = 0 := by
  by_contra hne
  simp [network_interfaces, hne] at h

theorem out_eq_of_ok (env : OsEnv) (out : List NetworkInterface)
    (h : network_interfaces env = Except.ok out) :
    out = intoValues (env.ifaddrs_list.foldl (processRecord env.if_nametoindex) []) := by
  have h0 := status_eq_zero_of_ok env out h
  rw [network_interfaces_ok env h0] at h
  injection h with h
  exact h.symm

/-- Sample raw `sockaddr` carrying an IPv4 payload (`sa_family = AF_INET`). -/
def sockV4 (v : Nat) : Sockaddr :=
  { sa_family := 2, sin_s_addr := v, sin6_s6_addr := [], sll_halen := 0, sll_addr := [] }

/-- Sample raw `sockaddr` carrying an IPv6 payload (`sa_family = AF_INET6`). -/
def sockV6 (b : List Nat) : Sockaddr :=
  { sa_family := 10, sin_s_addr := 0, sin6_s6_addr := b, sll_halen := 0, sll_addr := [] }

/-- Sample raw `sockaddr` carrying a link-layer payload (`sa_family = AF_PACKET`). -/
def sockLl (n : Nat) (b : List Nat) : Sockaddr :=
  { sa_family := 17, sin_s_addr := 0, sin6_s6_addr := [], sll_halen := n, sll_addr := b }

/-- C5: for every IPv4 raw record, the decoded `IfAddrV4` has `broadcast = none`
unless both the record's broadcast flag is set and the platform
broadcast/destination pointer (`ifa_ifu`) is non-null; when both hold,
`broadcast` is the pointed-to address decoded with the IPv4 byte-order
correction. -/
theorem c5_broadcast_gating (ifa : Ifaddrs) (flags : Flags) :
    ((if_addr_v4 ifa flags).broadcast = none ↔
      ¬(flags.broadcast = true ∧ ifa.ifa_ifu ≠ none)) ∧
    (∀ sa, ifa.ifa_ifu = some sa → flags.broadcast = true →
      (if_addr_v4 ifa flags).broadcast = some (u32_from_be sa.sin_s_addr)) := by
  constructor
  · cases hifu : ifa.ifa_ifu with
    | none => simp [if_addr_v4, hifu]
    | some sa => cases hb : flags.broadcast <;> simp [if_addr_v4, hifu, hb]
  · intro sa hifu hb
    simp [if_addr_v4, hifu, hb]

/-- Witness for C5 at a concrete record with the broadcast flag set and a
non-null union pointer. -/
theorem c5_broadcast_gating_witness :
    (if_addr_v4
        { ifa_name := "eth0", ifa_flags := 2, ifa_addr := some (sockV4 7),
          ifa_netmask := none, ifa_ifu := some (sockV4 99) }
        (flagsOf 2)).broadcast = some (u32_from_be 99) :=
  (c5_broadcast_gating
    { ifa_name := "eth0", ifa_flags := 2, ifa_addr := some (sockV4 7),
      ifa_netmask := none, ifa_ifu := some (sockV4 99) } (flagsOf 2)).2 (sockV4 99) rfl rfl

/-- Decidable test for one lowercase hexadecimal character (0-9, a-f). -/
def isHexLowerDigit (c : Char) : Bool :=
  (decide (48 ≤ c.toNat) && decide (c.toNat ≤ 57)) ||
  (decide (97 ≤ c.toNat) && decide (c.toNat ≤ 102))

/-- Decidable test of the canonical MAC shape: seventeen characters, lowercase
hex pairs separated by colons at positions 2, 5, 8, 11 and 14. -/
def isMacShape (s : String) : Bool :=
  match s.data with
  | [a1, a2, c1, b1, b2, c2, d1, d2, c3, e1, e2, c4, f1, f2, c5, g1, g2] =>
    isHexLowerDigit a1 && isHexLowerDigit a2 && (c1 == ':') &&
    isHexLowerDigit b1 && isHexLowerDigit b2 && (c2 == ':') &&
    isHexLowerDigit d1 && isHexLowerDigit d2 && (c3 == ':') &&
    isHexLowerDigit e1 && isHexLowerDigit e2 && (c4 == ':') &&
    isHexLowerDigit f1 && isHexLowerDigit f2 && (c5 == ':') &&
    isHexLowerDigit g1 && isHexLowerDigit g2
  | _ => false

theorem hexDigit_ok : ∀ n < 16, isHexLowerDigit (hexDigit n) = true := by decide

theorem byteToHexPair_ok (b : Nat) :
    ∃ u v, byteToHexPair b = String.mk [u, v] ∧
      isHexLowerDigit u = true ∧ isHexLowerDigit v = true := by
  refine ⟨hexDigit (b % 256 / 16), hexDigit (b % 16), rfl, ?_, ?_⟩
  · exact hexDigit_ok _ (by omega)
  · exact hexDigit_ok _ (by omega)

theorem string_data_append (s t : String) : (s ++ t).data = s.data ++ t.data := by
  cases s
  cases t
  rfl

theorem isMacShape_mac_to_string (mac : List Nat) :
    isMacShape (mac_to_string mac) = true := by
  obtain ⟨u0, v0, e0, hu0, hv0⟩ := byteToHexPair_ok (mac.getD 0 0)
  obtain ⟨u1, v1, e1, hu1, hv1⟩ := byteToHexPair_ok (mac.getD 1 0)
  obtain ⟨u2, v2, e2, hu2, hv2⟩ := byteToHexPair_ok (mac.getD 2 0)
  obtain ⟨u3, v3, e3, hu3, hv3⟩ := byteToHexPair_ok (mac.getD 3 0)
  obtain ⟨u4, v4, e4, hu4, hv4⟩ := byteToHexPair_ok (mac.getD 4 0)
  obtain ⟨u5, v5, e5, hu5, hv5⟩ := byteToHexPair_ok (mac.getD 5 0)
  have hdata : (mac_to_string mac).data =
      [u0, v0, ':', u1, v1, ':', u2, v2, ':', u3, v3, ':', u4, v4, ':', u5, v5] := by
    simp only [mac_to_string, string_data_append, e0, e1, e2, e3, e4, e5]
    rfl
  simp only [isMacShape, hdata]
  simp [hu0, hv0, hu1, hv1, hu2, hv2, hu3, hv3, hu4, hv4, hu5, hv5]

/-- C6: for every raw link-layer (`AF_PACKET`) record, the MAC decoder returns
`none` when the declared hardware address length is not exactly 6, and when it
is exactly 6 returns the six address bytes as lowercase colon-separated
two-digit hex pairs; it never returns a malformed string. -/
theorem c6_mac_decode (ifa : Ifaddrs) (sa : Sockaddr) (family : Int)
    (ha : ifa.ifa_addr = some sa) (hf : family = AF_PACKET) :
    (sa.sll_halen ≠ 6 → mac_addr ifa family = none) ∧
    (sa.sll_halen = 6 → mac_addr ifa family = some (mac_to_string sa.sll_addr)) ∧
    (∀ s, mac_addr ifa family = some s → isMacShape s = true) := by
  subst hf
  refine ⟨?_, ?_, ?_⟩
  · intro h6
    simp [mac_addr, ha, h6]
  · intro h6
    simp [mac_addr, ha, h6]
  · intro s hs
    by_cases h6 : sa.sll_halen = 6
    · have he : mac_addr ifa AF_PACKET = some (mac_to_string sa.sll_addr) := by
        simp [mac_addr, ha, h6]
      rw [he] at hs
      injection hs with hs
      rw [← hs]
      exact isMacShape_mac_to_string _
    · have he : mac_addr ifa AF_PACKET = none := by
        simp [mac_addr, ha, h6]
      rw [he] at hs
      cases hs

/-- Witness for C6 at a concrete Ethernet record with hardware length 6. -/
theorem c6_mac_decode_witness :
    mac_addr
      { ifa_name := "eth0", ifa_flags := 0,
        ifa_addr := some (sockLl 6 [170, 187, 204, 221, 238, 255, 0, 0]),
        ifa_netmask := none, ifa_ifu := none } 17 =
      some (mac_to_string [170, 187, 204, 221, 238, 255, 0, 0]) :=
  (c6_mac_decode
    { ifa_name := "eth0", ifa_flags := 0,
      ifa_addr := some (sockLl 6 [170, 187, 204, 221, 238, 255, 0, 0]),
      ifa_netmask := none, ifa_ifu := none }
    (sockLl 6 [170, 187, 204, 221, 238, 255, 0, 0]) 17 rfl rfl).2.1 rfl

/-- C7: a nonzero `getifaddrs` status makes `network_interfaces` return
`FailedToGetResource` carrying the numeric code, for every list content
(nothing is walked, no partial result); likewise a nonzero `gethostname`
status makes `hostname` return `FailedToGetResource` with the code. -/
theorem c7_acquisition_failure (env : OsEnv) (henv : HostnameEnv) :
    (env.getifaddrs_status ≠ 0 →
      network_interfaces env = Except.error (Error.FailedToGetResource
        ("getifaddrs returned " ++ toString env.getifaddrs_status))) ∧
    (henv.gethostname_status ≠ 0 →
      hostname henv = Except.error (Error.FailedToGetResource
        ("gethostname returned " ++ toString henv.gethostname_status))) := by
  constructor
  · intro h
    simp [network_interfaces, h]
  · intro h
    simp [hostname, h]

/-- Witness for C7 at status -1 for the list and 5 for the hostname buffer. -/
theorem c7_acquisition_failure_witness :
    network_interfaces
        { getifaddrs_status := -1, ifaddrs_list := [], if_nametoindex := fun _ => 0 } =
      Except.error (Error.FailedToGetResource
        ("getifaddrs returned " ++ toString (-1 : Int))) ∧
    hostname { gethostname_status := 5, buf_bytes := [104, 105] } =
      Except.error (Error.FailedToGetResource
        ("gethostname returned " ++ toString (5 : Int))) :=
  ⟨(c7_acquisition_failure ⟨-1, [], fun _ => 0⟩ ⟨5, [104, 105]⟩).1 (by decide),
   (c7_acquisition_failure ⟨-1, [], fun _ => 0⟩ ⟨5, [104, 105]⟩).2 (by decide)⟩

/-- C2: for every successful call, the returned list is sorted in strictly
ascending order of the `index` field — one entry per key of the ordered
aggregation map. -/
theorem c2_sorted_by_index (env : OsEnv) (out : List NetworkInterface)
    (h : network_interfaces env = Except.ok out) :
    List.Pairwise (fun a b => a.index < b.index) out := by
  have hout := out_eq_of_ok env out h
  subst hout
  obtain ⟨hp, hi⟩ := wf_foldl env.if_nametoindex env.ifaddrs_list []
    List.Pairwise.nil (fun p hp => absurd hp (List.not_mem_nil p))
  exact pairwise_intoValues _ hp hi

/-- Sample environment: a loopback interface and an Ethernet interface, each
with one IPv4 record. -/
def c2Env : OsEnv :=
  { getifaddrs_status := 0,
    ifaddrs_list :=
      [ { ifa_name := "lo", ifa_flags := 73, ifa_addr := some (sockV4 16777343),
          ifa_netmask := none, ifa_ifu := none },
        { ifa_name := "eth0", ifa_flags := 4163, ifa_addr := some (sockV4 167880896),
          ifa_netmask := none, ifa_ifu := none } ],
    if_nametoindex := fun n => if n = "lo" then 1 else 2 }

/-- The interface list the sample environment enumerates. -/
def c2Out : List NetworkInterface := (network_interfaces c2Env).toOption.getD []

/-- Witness for C2 on the sample environment. -/
theorem c2_sorted_by_index_witness :
    List.Pairwise (fun a b => a.index < b.index) c2Out :=
  c2_sorted_by_index c2Env c2Out rfl

/-- C4: merging a raw record into an already-existing map slot leaves the
slot's `name` and `flags` unchanged; an address update only appends to `addr`
and keeps `mac_addr`, while a link-layer update only replaces `mac_addr`
(possibly with `none`) and keeps `addr`. -/
theorem c4_update_frame (k : Nat) (name : String) (a : Addr) (mac : Option String)
    (flags : Flags) (m : Imap) (v : NetworkInterface)
    (hp : List.Pairwise keyLt m) (hv : lookupEntry k m = some v) :
    lookupEntry k (update_interfaces k name a flags m) =
      some { index := v.index, name := v.name, addr := v.addr ++ [a],
             mac_addr := v.mac_addr, flags := v.flags } ∧
    lookupEntry k (update_interfaces_with_mac k name mac flags m) =
      some { index := v.index, name := v.name, addr := v.addr,
             mac_addr := mac, flags := v.flags } := by
  constructor
  · exact lookupEntry_entryModify_some k _ _ m v hp hv
  · exact lookupEntry_entryModify_some k _ _ m v hp hv

/-- Witness for C4 on a one-slot map holding a populated interface. -/
theorem c4_update_frame_witness :
    lookupEntry 3
        (update_interfaces 3 "x" (Addr.IPv6 { ip := [0], netmask := none }) (flagsOf 0)
          [(3, { index := 3, name := "wlan0", addr := [],
                 mac_addr := some "aa:aa:aa:aa:aa:aa", flags := flagsOf 1 })]) =
      some { index := 3, name := "wlan0",
             addr := [Addr.IPv6 { ip := [0], netmask := none }],
             mac_addr := some "aa:aa:aa:aa:aa:aa", flags := flagsOf 1 } ∧
    lookupEntry 3
        (update_interfaces_with_mac 3 "x" none (flagsOf 0)
          [(3, { index := 3, name := "wlan0", addr := [],
                 mac_addr := some "aa:aa:aa:aa:aa:aa", flags := flagsOf 1 })]) =
      some { index := 3, name := "wlan0", addr := [], mac_addr := none,
             flags := flagsOf 1 } :=
  c4_update_frame 3 "x" (Addr.IPv6 { ip := [0], netmask := none }) none (flagsOf 0)
    [(3, { index := 3, name := "wlan0", addr := [],
           mac_addr := some "aa:aa:aa:aa:aa:aa", flags := flagsOf 1 })]
    { index := 3, name := "wlan0", addr := [],
      mac_addr := some "aa:aa:aa:aa:aa:aa", flags := flagsOf 1 }
    (by simp) rfl

/-- C8: for every successful enumeration, an address is in
`local_ipv4_addresses` exactly when some non-loopback interface's first IPv4
address has that IP; in particular no loopback interface contributes, and an
interface with no IPv4 address contributes nothing. -/
theorem c8_local_ipv4 (env : OsEnv) (out : List NetworkInterface) (l : List Nat)
    (hout : network_interfaces env = Except.ok out)
    (hl : local_ipv4_addresses env = Except.ok l) :
    l = out.filterMap (fun ni => if ni.flags.loopback then none else firstIPv4 ni.addr) ∧
    ∀ a, a ∈ l ↔ ∃ ni ∈ out, ni.flags.loopback = false ∧ firstIPv4 ni.addr = some a := by
  have he : local_ipv4_addresses env = Except.ok (out.filterMap (fun ni =>
      if ni.flags.loopback then none else firstIPv4 ni.addr)) := by
    simp only [local_ipv4_addresses, hout]
    rfl
  rw [he] at hl
  injection hl with hl
  subst hl
  refine ⟨rfl, ?_⟩
  intro a
  rw [List.mem_filterMap]
  constructor
  · rintro ⟨ni, hni, hf⟩
    by_cases hb : ni.flags.loopback
    · rw [if_pos hb] at hf
      cases hf
    · rw [if_neg hb] at hf
      exact ⟨ni, hni, by simpa using hb, hf⟩
  · rintro ⟨ni, hni, hb, hf⟩
    refine ⟨ni, hni, ?_⟩
    rw [if_neg (by simp [hb])]
    exact hf

/-- The non-loopback local IPv4 list of the sample environment. -/
def c2Local : List Nat := (local_ipv4_addresses c2Env).toOption.getD []

/-- Witness for C8 on the sample environment: eth0's address 192.168.1.10
(numeric 3232235786) is reported, coming from the non-loopback entry. -/
theorem c8_local_ipv4_witness : 3232235786 ∈ c2Local :=
  ((c8_local_ipv4 c2Env c2Out c2Local rfl rfl).2 3232235786).mpr
    ⟨{ index := 2, name := "eth0",
       addr := [Addr.IPv4 { ip := 3232235786, netmask := none, broadcast := none }],
       mac_addr := none, flags := flagsOf 4163 },
     by decide, by decide, by decide⟩

/-- C9: when `if_nametoindex` returns 0 for a record's name, the enumeration
still succeeds, the diagnostic message is emitted, and (when the record
carries an address) the record is merged under index 0, so the interface is
still reported with index 0. -/
theorem c9_zero_index_tolerated (env : OsEnv) (r : Ifaddrs)
    (hst : env.getifaddrs_status = 0) (hr : r ∈ env.ifaddrs_list)
    (hz : env.if_nametoindex r.ifa_name = 0) :
    ∃ out, network_interfaces env = Except.ok out ∧
      ("Interface no longer exists: " ++ r.ifa_name) ∈ (network_interfaces_walk env).1 ∧
      (r.ifa_addr ≠ none → ∃ ni ∈ out, ni.index = 0) := by
  refine ⟨_, network_interfaces_ok env hst, ?_, ?_⟩
  · exact diag_mem_foldl env.if_nametoindex env.ifaddrs_list ([], []) r _ hr
      (by simp [recordDiag, hz])
  · intro haddr
    have hsome : (lookupEntry 0
        (env.ifaddrs_list.foldl (processRecord env.if_nametoindex) [])).isSome = true := by
      rw [isSome_foldl]
      exact Or.inr ⟨r, hr, haddr, hz⟩
    obtain ⟨v, hv⟩ := Option.isSome_iff_exists.mp hsome
    obtain ⟨hp, hi⟩ := wf_foldl env.if_nametoindex env.ifaddrs_list []
      List.Pairwise.nil (fun p hp => absurd hp (List.not_mem_nil p))
    have hmem := mem_of_lookupEntry_eq 0 v _ hv
    exact ⟨v, (mem_intoValues _ v).mpr ⟨0, hmem⟩, hi (0, v) hmem⟩

/-- Sample environment whose single record's name no longer resolves. -/
def c9Env : OsEnv :=
  { getifaddrs_status := 0,
    ifaddrs_list := [ { ifa_name := "gone0", ifa_flags := 0,
                        ifa_addr := some (sockV4 5), ifa_netmask := none,
                        ifa_ifu := none } ],
    if_nametoindex := fun _ => 0 }

/-- Witness for C9: the diagnostic for the vanished interface is emitted. -/
theorem c9_zero_index_tolerated_witness :
    ("Interface no longer exists: " ++ "gone0") ∈ (network_interfaces_walk c9Env).1 := by
  obtain ⟨out, -, hdiag, -⟩ := c9_zero_index_tolerated c9Env
    { ifa_name := "gone0", ifa_flags := 0, ifa_addr := some (sockV4 5),
      ifa_netmask := none, ifa_ifu := none } rfl (by simp [c9Env]) rfl
  exact hdiag

/-- C10: a raw record whose primary address pointer is null leaves the
aggregation map unchanged (its name and flags are discarded), and an index
all of whose records are null-address is entirely absent from the output. -/
theorem c10_null_addr_no_effect (resolve : String → Nat) (m : Imap) (ifa : Ifaddrs)
    (env : OsEnv) (out : List NetworkInterface) (i : Nat)
    (hnull : ifa.ifa_addr = none)
    (hok : network_interfaces env = Except.ok out)
    (hall : ∀ r ∈ env.ifaddrs_list, env.if_nametoindex r.ifa_name = i → r.ifa_addr = none) :
    processRecord resolve m ifa = m ∧ ∀ ni ∈ out, ni.index ≠ i := by
  refine ⟨processRecord_null resolve m ifa hnull, ?_⟩
  intro ni hni hidx
  have hout := out_eq_of_ok env out hok
  subst hout
  rw [mem_intoValues] at hni
  obtain ⟨k, hk⟩ := hni
  obtain ⟨hp, hi⟩ := wf_foldl env.if_nametoindex env.ifaddrs_list []
    List.Pairwise.nil (fun p hp => absurd hp (List.not_mem_nil p))
  have hkidx : ni.index = k := hi (k, ni) hk
  have hki : k = i := by omega
  have hsome := isSome_lookupEntry_of_mem k ni _ hk
  rw [isSome_foldl] at hsome
  rcases hsome with h | ⟨r, hr, hna, hres⟩
  · simp [lookupEntry] at h
  · rw [hki] at hres
    exact hna (hall r hr hres)

/-- Record with a null primary address pointer. -/
def c10Ifa : Ifaddrs :=
  { ifa_name := "dummy0", ifa_flags := 0, ifa_addr := none,
    ifa_netmask := none, ifa_ifu := none }

/-- Environment whose only record for index 7 has a null address. -/
def c10Env : OsEnv :=
  { getifaddrs_status := 0, ifaddrs_list := [c10Ifa], if_nametoindex := fun _ => 7 }

/-- Witness for C10: the null-address record leaves the map untouched. -/
theorem c10_null_addr_no_effect_witness :
    processRecord (fun _ => 7) [] c10Ifa = [] :=
  (c10_null_addr_no_effect (fun _ => 7) [] c10Ifa c10Env [] 7 rfl rfl
    (fun r hr _ => by rw [List.mem_singleton.mp hr]; rfl)).1

theorem processRecord_v4 (resolve : String → Nat) (m : Imap) (ifa : Ifaddrs)
    (sa : Sockaddr) (h : ifa.ifa_addr = some sa) (h4 : sa.sa_family = AF_INET) :
    processRecord resolve m ifa =
      update_interfaces (resolve ifa.ifa_name) ifa.ifa_name
        (Addr.IPv4 (if_addr_v4 ifa (flagsOf ifa.ifa_flags))) (flagsOf ifa.ifa_flags) m := by
  simp only [processRecord, h]
  rw [if_pos h4]

theorem processRecord_v6 (resolve : String → Nat) (m : Imap) (ifa : Ifaddrs)
    (sa : Sockaddr) (h : ifa.ifa_addr = some sa) (h6 : sa.sa_family = AF_INET6) :
    processRecord resolve m ifa =
      update_interfaces (resolve ifa.ifa_name) ifa.ifa_name
        (Addr.IPv6 (if_addr_v6 ifa)) (flagsOf ifa.ifa_flags) m := by
  simp only [processRecord, h]
  have h4 : ¬ sa.sa_family = AF_INET := by
    rw [h6]
    decide
  rw [if_neg h4, if_pos h6]

/-- First raw record of the C3 environment: raw flags 0. -/
def c3r1 : Ifaddrs :=
  { ifa_name := "eth0", ifa_flags := 0, ifa_addr := some (sockV4 16777343),
    ifa_netmask := none, ifa_ifu := none }

/-- Last raw record of the C3 environment: raw flags 1 (`IFF_UP`). -/
def c3r2 : Ifaddrs :=
  { ifa_name := "eth0", ifa_flags := 1, ifa_addr := some (sockV4 16777343),
    ifa_netmask := none, ifa_ifu := none }

/-- Environment with two raw records sharing index 1 but carrying different
raw flag bits. -/
def c3Env : OsEnv :=
  { getifaddrs_status := 0, ifaddrs_list := [c3r1, c3r2], if_nametoindex := fun _ => 1 }

/-- Counterexample to C3 as stated: with two records of index 1, raw flags 0
then 1, the retained `flags` are those of the FIRST record processed
(`flagsOf 0`), which differ from the last record's (`flagsOf 1`) — last write
does not win. -/
theorem c3_counterexample :
    network_interfaces c3Env = Except.ok
      [{ index := 1, name := "eth0",
         addr := [Addr.IPv4 { ip := 2130706433, netmask := none, broadcast := none },
                  Addr.IPv4 { ip := 2130706433, netmask := none, broadcast := none }],
         mac_addr := none, flags := flagsOf c3r1.ifa_flags }] ∧
    flagsOf c3r1.ifa_flags ≠ flagsOf c3r2.ifa_flags :=
  ⟨rfl, by decide⟩

/-- C3 amended: across raw records sharing one index, the retained `Flags`
value is that of the FIRST such record processed (slot creation stores the
flags; later merges never overwrite them). -/
theorem c3_first_record_flags (env : OsEnv) (out : List NetworkInterface) (i : Nat)
    (l1 l2 : List Ifaddrs) (r : Ifaddrs) (sa : Sockaddr)
    (hok : network_interfaces env = Except.ok out)
    (hl : env.ifaddrs_list = l1 ++ r :: l2)
    (hr : r.ifa_addr = some sa)
    (hri : env.if_nametoindex r.ifa_name = i)
    (hfirst : ∀ r' ∈ l1, r'.ifa_addr ≠ none → env.if_nametoindex r'.ifa_name ≠ i) :
    ∀ ni ∈ out, ni.index = i → ni.flags = flagsOf r.ifa_flags := by
  intro ni hni hidx
  have hout := out_eq_of_ok env out hok
  subst hout
  rw [mem_intoValues] at hni
  obtain ⟨k, hk⟩ := hni
  obtain ⟨hpM, hiM⟩ := wf_foldl env.if_nametoindex env.ifaddrs_list []
    List.Pairwise.nil (fun p hp => absurd hp (List.not_mem_nil p))
  have hkidx : ni.index = k := hiM (k, ni) hk
  have hki : k = i := by omega
  subst hki
  have hlook : lookupEntry k
      (env.ifaddrs_list.foldl (processRecord env.if_nametoindex) []) = some ni :=
    lookupEntry_eq_of_mem k ni _ hpM hk
  rw [hl, List.foldl_append, List.foldl_cons] at hlook
  have hm0 : lookupEntry k (l1.foldl (processRecord env.if_nametoindex) []) = none := by
    rw [lookupEntry_foldl_frame env.if_nametoindex l1 [] k hfirst]
    rfl
  obtain ⟨hp0, hi0⟩ := wf_foldl env.if_nametoindex l1 []
    List.Pairwise.nil (fun p hp => absurd hp (List.not_mem_nil p))
  obtain ⟨f, d, heq, hB, hC, hD, hE⟩ := processRecord_shape env.if_nametoindex
    (l1.foldl (processRecord env.if_nametoindex) []) r sa hr
  rw [hri] at heq
  have hstep : lookupEntry k (processRecord env.if_nametoindex
      (l1.foldl (processRecord env.if_nametoindex) []) r) = some d := by
    rw [heq]
    exact lookupEntry_entryModify_none k f d _ hm0
  obtain ⟨hp1, hi1⟩ := wf_processRecord env.if_nametoindex
    (l1.foldl (processRecord env.if_nametoindex) []) r hp0 hi0
  obtain ⟨v', hv', hn', hf'⟩ := preserve_foldl env.if_nametoindex l2 _ k d hp1 hi1 hstep
  rw [hlook] at hv'
  injection hv' with hv'
  rw [hv', hf', hE]

/-- Witness for the amended C3 on the two-record environment: the surviving
entry keeps the flags of the first record. -/
theorem c3_first_record_flags_witness :
    ({ index := 1, name := "eth0",
       addr := [Addr.IPv4 { ip := 2130706433, netmask := none, broadcast := none },
                Addr.IPv4 { ip := 2130706433, netmask := none, broadcast := none }],
       mac_addr := none,
       flags := flagsOf c3r1.ifa_flags } : NetworkInterface).flags =
      flagsOf c3r1.ifa_flags :=
  c3_first_record_flags c3Env
    [{ index := 1, name := "eth0",
       addr := [Addr.IPv4 { ip := 2130706433, netmask := none, broadcast := none },
                Addr.IPv4 { ip := 2130706433, netmask := none, broadcast := none }],
       mac_addr := none, flags := flagsOf c3r1.ifa_flags }] 1
    [] [c3r2] c3r1 (sockV4 16777343) rfl rfl rfl rfl
    (fun r' h _ => absurd h (List.not_mem_nil r'))
    _ (List.mem_singleton.mpr rfl) rfl

/-- C1: every output holds at most one entry per interface index, and when the
raw list holds exactly one IPv4 record and one IPv6 record resolving to index
`i` (in that discovery order, no other record resolving to `i`), the output
holds exactly one entry for `i`, whose `addr` sequence is the two decoded
addresses in discovery order (length 2) — not two separate entries. -/
theorem c1_merge_per_index (env : OsEnv) (out : List NetworkInterface) (i : Nat)
    (hok : network_interfaces env = Except.ok out) :
    (∀ j, (out.filter (fun ni => ni.index = j)).length ≤ 1) ∧
    (∀ l1 l2 l3 r4 r6 sa4 sa6,
      env.ifaddrs_list = l1 ++ r4 :: (l2 ++ r6 :: l3) →
      r4.ifa_addr = some sa4 → sa4.sa_family = AF_INET →
      r6.ifa_addr = some sa6 → sa6.sa_family = AF_INET6 →
      env.if_nametoindex r4.ifa_name = i → env.if_nametoindex r6.ifa_name = i →
      (∀ r ∈ l1 ++ l2 ++ l3, r.ifa_addr ≠ none → env.if_nametoindex r.ifa_name ≠ i) →
      out.filter (fun ni => ni.index = i) =
        [{ index := i, name := r4.ifa_name,
           addr := [Addr.IPv4 (if_addr_v4 r4 (flagsOf r4.ifa_flags)),
                    Addr.IPv6 (if_addr_v6 r6)],
           mac_addr := none, flags := flagsOf r4.ifa_flags }]) := by
  have hout := out_eq_of_ok env out hok
  obtain ⟨hpM, hiM⟩ := wf_foldl env.if_nametoindex env.ifaddrs_list []
    List.Pairwise.nil (fun p hp => absurd hp (List.not_mem_nil p))
  have hsorted : List.Pairwise (fun a b => a.index < b.index) out := by
    rw [hout]
    exact pairwise_intoValues _ hpM hiM
  refine ⟨fun j => length_filter_index_le_one out j hsorted, ?_⟩
  intro l1 l2 l3 r4 r6 sa4 sa6 hl h4a h4f h6a h6f h4i h6i hothers
  have hm0 : lookupEntry i (l1.foldl (processRecord env.if_nametoindex) []) = none := by
    rw [lookupEntry_foldl_frame env.if_nametoindex l1 [] i
      (fun r hr => hothers r (by simp [hr]))]
    rfl
  obtain ⟨hp0, hi0⟩ := wf_foldl env.if_nametoindex l1 []
    List.Pairwise.nil (fun p hp => absurd hp (List.not_mem_nil p))
  have hm1 : lookupEntry i (processRecord env.if_nametoindex
      (l1.foldl (processRecord env.if_nametoindex) []) r4) =
      some { index := i, name := r4.ifa_name,
             addr := [Addr.IPv4 (if_addr_v4 r4 (flagsOf r4.ifa_flags))],
             mac_addr := none, flags := flagsOf r4.ifa_flags } := by
    rw [processRecord_v4 env.if_nametoindex _ r4 sa4 h4a h4f, h4i]
    exact lookupEntry_entryModify_none i _ _ _ hm0
  obtain ⟨hp1, hi1⟩ := wf_processRecord env.if_nametoindex _ r4 hp0 hi0
  have hm2 : lookupEntry i (l2.foldl (processRecord env.if_nametoindex)
      (processRecord env.if_nametoindex
        (l1.foldl (processRecord env.if_nametoindex) []) r4)) =
      some { index := i, name := r4.ifa_name,
             addr := [Addr.IPv4 (if_addr_v4 r4 (flagsOf r4.ifa_flags))],
             mac_addr := none, flags := flagsOf r4.ifa_flags } := by
    rw [lookupEntry_foldl_frame env.if_nametoindex l2 _ i
      (fun r hr => hothers r (by simp [hr]))]
    exact hm1
  obtain ⟨hp2, hi2⟩ := wf_foldl env.if_nametoindex l2 _ hp1 hi1
  have hm3 : lookupEntry i (processRecord env.if_nametoindex
      (l2.foldl (processRecord env.if_nametoindex)
        (processRecord env.if_nametoindex
          (l1.foldl (processRecord env.if_nametoindex) []) r4)) r6) =
      some { index := i, name := r4.ifa_name,
             addr := [Addr.IPv4 (if_addr_v4 r4 (flagsOf r4.ifa_flags)),
                      Addr.IPv6 (if_addr_v6 r6)],
             mac_addr := none, flags := flagsOf r4.ifa_flags } := by
    rw [processRecord_v6 env.if_nametoindex _ r6 sa6 h6a h6f, h6i]
    exact lookupEntry_entryModify_some i _ _ _ _ hp2 hm2
  obtain ⟨hp3, hi3⟩ := wf_processRecord env.if_nametoindex _ r6 hp2 hi2
  have hm4 : lookupEntry i (l3.foldl (processRecord env.if_nametoindex)
      (processRecord env.if_nametoindex
        (l2.foldl (processRecord env.if_nametoindex)
          (processRecord env.if_nametoindex
            (l1.foldl (processRecord env.if_nametoindex) []) r4)) r6)) =
      some { index := i, name := r4.ifa_name,
             addr := [Addr.IPv4 (if_addr_v4 r4 (flagsOf r4.ifa_flags)),
                      Addr.IPv6 (if_addr_v6 r6)],
             mac_addr := none, flags := flagsOf r4.ifa_flags } := by
    rw [lookupEntry_foldl_frame env.if_nametoindex l3 _ i
      (fun r hr => hothers r (by simp [hr]))]
    exact hm3
  have hMeq : env.ifaddrs_list.foldl (processRecord env.if_nametoindex) [] =
      l3.foldl (processRecord env.if_nametoindex)
        (processRecord env.if_nametoindex
          (l2.foldl (processRecord env.if_nametoindex)
            (processRecord env.if_nametoindex
              (l1.foldl (processRecord env.if_nametoindex) []) r4)) r6) := by
    rw [hl, List.foldl_append, List.foldl_cons, List.foldl_append, List.foldl_cons]
  have hlookM : lookupEntry i
      (env.ifaddrs_list.foldl (processRecord env.if_nametoindex) []) =
      some { index := i, name := r4.ifa_name,
             addr := [Addr.IPv4 (if_addr_v4 r4 (flagsOf r4.ifa_flags)),
                      Addr.IPv6 (if_addr_v6 r6)],
             mac_addr := none, flags := flagsOf r4.ifa_flags } := by
    rw [hMeq]
    exact hm4
  have hmemM := mem_of_lookupEntry_eq i _ _ hlookM
  have hmemout := (mem_intoValues
    (env.ifaddrs_list.foldl (processRecord env.if_nametoindex) []) _).mpr ⟨i, hmemM⟩
  rw [← hout] at hmemout
  have hfil : _ ∈ out.filter (fun ni => ni.index = i) :=
    List.mem_filter.mpr ⟨hmemout, by simp⟩
  exact eq_singleton_of_length_le_one _ _ (length_filter_index_le_one out i hsorted) hfil

/-- IPv4 raw record of the C1 sample. -/
def c1r4 : Ifaddrs :=
  { ifa_name := "eth1", ifa_flags := 4163, ifa_addr := some (sockV4 167880896),
    ifa_netmask := none, ifa_ifu := none }

/-- IPv6 raw record of the C1 sample. -/
def c1r6 : Ifaddrs :=
  { ifa_name := "eth1", ifa_flags := 4163, ifa_addr := some (sockV6 (List.replicate 16 7)),
    ifa_netmask := none, ifa_ifu := none }

/-- Environment where one interface appears as one IPv4 and one IPv6 record. -/
def c1Env : OsEnv :=
  { getifaddrs_status := 0, ifaddrs_list := [c1r4, c1r6], if_nametoindex := fun _ => 4 }

/-- The interface list the C1 environment enumerates. -/
def c1Out : List NetworkInterface := (network_interfaces c1Env).toOption.getD []

/-- Witness for C1: the two records merge into one entry with two addresses. -/
theorem c1_merge_per_index_witness :
    c1Out.filter (fun ni => ni.index = 4) =
      [{ index := 4, name := "eth1",
         addr := [Addr.IPv4 (if_addr_v4 c1r4 (flagsOf c1r4.ifa_flags)),
                  Addr.IPv6 (if_addr_v6 c1r6)],
         mac_addr := none, flags := flagsOf c1r4.ifa_flags }] :=
  (c1_merge_per_index c1Env c1Out 4 rfl).2 [] [] [] c1r4 c1r6
    (sockV4 167880896) (sockV6 (List.replicate 16 7))
    rfl rfl rfl rfl rfl rfl rfl (by simp)

end OsIface
